import Mathlib

/-
Verification of the BVC (Blockchain Version Control) CLI core.

Shallow embedding of the repository's JavaScript sources:
  - src/lib/commands/checkpoint.js  (checkpoint action, createMerkleRoot,
    range resolution over commits.json)
  - src/lib/commands/commit.js      (commit action, commitHash derivation,
    parent linking, remote try/catch)
  - src/lib/commands/add.js         (staging upsert, directory expansion,
    getAllFilesInDirectory)
  - src/lib/commands/revert.js      (push command, local-only early return)

File I/O is modelled as explicit state (`RepoState`, `CommitState`), and
each remote collaborator call (IPFS upload, contract transaction) as an
`Except`-valued input supplied by an environment record, mirroring the
single awaited call sites in the source.  `crypto.createHash("sha256")
.update(s).digest("hex")` is implemented concretely (FIPS 180-4) so that
hash values compute inside proofs.
-/

namespace BVC

/-! ## SHA-256 over byte lists (FIPS 180-4), all arithmetic in `Nat` mod 2^32 -/

/-- Truncate to a 32-bit word. -/
def m32 (x : Nat) : Nat := x % 4294967296

/-- Right rotation of a 32-bit word by `n` bits. -/
def rotr (n x : Nat) : Nat := m32 ((x >>> n) ||| (x <<< (32 - n)))

def bigSigma0 (x : Nat) : Nat := (rotr 2 x) ^^^ (rotr 13 x) ^^^ (rotr 22 x)

def bigSigma1 (x : Nat) : Nat := (rotr 6 x) ^^^ (rotr 11 x) ^^^ (rotr 25 x)

def smallSigma0 (x : Nat) : Nat := (rotr 7 x) ^^^ (rotr 18 x) ^^^ (x >>> 3)

def smallSigma1 (x : Nat) : Nat := (rotr 17 x) ^^^ (rotr 19 x) ^^^ (x >>> 10)

/-- Round-constant table of FIPS 180-4 section 4.2.2 (decimal, row
major). -/
def shaK : List Nat :=
  [1116352408, 1899447441, 3049323471, 3921009573, 961987163, 1508970993,
   2453635748, 2870763221, 3624381080, 310598401, 607225278, 1426881987,
   1925078388, 2162078206, 2614888103, 3248222580, 3835390401, 4022224774,
   264347078, 604807628, 770255983, 1249150122, 1555081692, 1996064986,
   2554220882, 2821834349, 2952996808, 3210313671, 3336571891, 3584528711,
   113926993, 338241895, 666307205, 773529912, 1294757372, 1396182291,
   1695183700, 1986661051, 2177026350, 2456956037, 2730485921, 2820302411,
   3259730800, 3345764771, 3516065817, 3600352804, 4094571909, 275423344,
   430227734, 506948616, 659060556, 883997877, 958139571, 1322822218,
   1537002063, 1747873779, 1955562222, 2024104815, 2227730452, 2361852424,
   2428436474, 2756734187, 3204031479, 3329325298]

/-- Initial hash state of FIPS 180-4 section 5.3.3 (decimal). -/
def shaH0 : List Nat :=
  [1779033703, 3144134277, 1013904242, 2773480762,
   1359893119, 2600822924, 528734635, 1541459225]

/-- Pad a byte-level message: append `0x80`, zeros, and the 64-bit
big-endian bit length, reaching a multiple of 64 bytes. -/
def padMessage (msg : List Nat) : List Nat :=
  let len := msg.length
  let bitLen := len * 8
  let zeros := (64 + 55 - len % 64) % 64
  msg ++ [0x80] ++ List.replicate zeros 0 ++
    [(bitLen >>> 56) % 256, (bitLen >>> 48) % 256, (bitLen >>> 40) % 256,
     (bitLen >>> 32) % 256, (bitLen >>> 24) % 256, (bitLen >>> 16) % 256,
     (bitLen >>> 8) % 256, bitLen % 256]

/-- Big-endian 32-bit words from a byte list (length a multiple of 4). -/
def toWords : List Nat → List Nat
  | b0 :: b1 :: b2 :: b3 :: rest =>
      (((b0 * 256 + b1) * 256 + b2) * 256 + b3) :: toWords rest
  | _ => []

/-- Split a word list into 16-word (512-bit) blocks. -/
def chunkWords : List Nat → List (List Nat)
  | w0 :: w1 :: w2 :: w3 :: w4 :: w5 :: w6 :: w7 ::
    w8 :: w9 :: w10 :: w11 :: w12 :: w13 :: w14 :: w15 :: rest =>
      [w0, w1, w2, w3, w4, w5, w6, w7, w8, w9, w10, w11, w12, w13, w14, w15] ::
        chunkWords rest
  | _ => []

/-- Extend a 16-word block toward the 64-word message schedule (one word
per step once the block is in place). -/
def extendSchedule (w : List Nat) : Nat → List Nat
  | 0 => w
  | n + 1 =>
      let w' := extendSchedule w n
      if w'.length < 64 then
        let i := w'.length
        w' ++ [m32 (smallSigma1 (w'.getD (i - 2) 0) + w'.getD (i - 7) 0 +
                    smallSigma0 (w'.getD (i - 15) 0) + w'.getD (i - 16) 0)]
      else w'

/-- The full 64-word message schedule of a block. -/
def schedule (w : List Nat) : List Nat := extendSchedule w 48

/-- One round of the SHA-256 compression function on `[a,b,c,d,e,f,g,h]`. -/
def shaRound (st : List Nat) (kw : Nat × Nat) : List Nat :=
  match st with
  | [a, b, c, d, e, f, g, h] =>
      let t1 := m32 (h + bigSigma1 e + ((e &&& f) ^^^ ((4294967295 - e) &&& g)) + kw.1 + kw.2)
      let t2 := m32 (bigSigma0 a + ((a &&& b) ^^^ (a &&& c) ^^^ (b &&& c)))
      [m32 (t1 + t2), a, b, c, m32 (d + t1), e, f, g]
  | st => st

/-- Process one 512-bit block. -/
def compress (st : List Nat) (block : List Nat) : List Nat :=
  let ws := schedule block
  let st' := (shaK.zip ws).foldl shaRound st
  (st.zip st').map fun p => m32 (p.1 + p.2)

/-- SHA-256 of a byte list, as eight 32-bit words. -/
def sha256Words (msg : List Nat) : List Nat :=
  (chunkWords (toWords (padMessage msg))).foldl compress shaH0

/-- Lower-case hex digit. -/
def hexDigit (n : Nat) : Char :=
  if n < 10 then Char.ofNat (48 + n) else Char.ofNat (87 + n)

/-- Lower-case hex rendering of a 32-bit word. -/
def wordToHex (w : Nat) : List Char :=
  [hexDigit ((w >>> 28) % 16), hexDigit ((w >>> 24) % 16), hexDigit ((w >>> 20) % 16),
   hexDigit ((w >>> 16) % 16), hexDigit ((w >>> 12) % 16), hexDigit ((w >>> 8) % 16),
   hexDigit ((w >>> 4) % 16), hexDigit (w % 16)]

/-- UTF-8 encoding of one code point, as byte values (Node's
`hash.update(string)` encodes the string as UTF-8). -/
def utf8Bytes (c : Nat) : List Nat :=
  if c < 0x80 then [c]
  else if c < 0x800 then [0xC0 ||| (c >>> 6), 0x80 ||| (c &&& 0x3F)]
  else if c < 0x10000 then
    [0xE0 ||| (c >>> 12), 0x80 ||| ((c >>> 6) &&& 0x3F), 0x80 ||| (c &&& 0x3F)]
  else
    [0xF0 ||| (c >>> 18), 0x80 ||| ((c >>> 12) &&& 0x3F),
     0x80 ||| ((c >>> 6) &&& 0x3F), 0x80 ||| (c &&& 0x3F)]

/-- UTF-8 bytes of a string. -/
def strBytes (s : String) : List Nat := (s.data.map Char.toNat).flatMap utf8Bytes

/-- Embedding of `crypto.createHash("sha256").update(s).digest("hex")`,
the Content Hasher used throughout the sources. -/
def sha256hex (s : String) : String :=
  ⟨((sha256Words (strBytes s)).map wordToHex).flatten⟩

/-! ## JavaScript list/string primitives used by the sources -/

/-- Embedding of `s.startsWith(p)` (JS `String.prototype.startsWith`):
`p` is a prefix of `s`, compared unit by unit. -/
def jsStartsWith (s p : String) : Bool := p.data.isPrefixOf s.data

/-- Embedding of `Array.prototype.findIndex` (first index satisfying the
predicate; JS returns `-1`, modelled as `none`). -/
def findIndex (p : α → Bool) : List α → Option Nat
  | [] => none
  | a :: l => if p a then some 0 else (findIndex p l).map (· + 1)

/-- Embedding of `Array.prototype.sort()` on an array of strings: default
sort compares strings lexicographically.  Insertion sort is stable, like
the sorts JS engines use. -/
def jsSortStrings (l : List String) : List String := l.insertionSort (· ≤ ·)

/-! ## Data model: the JSON documents under `.bvc/` -/

/-- A file snapshot as stored in a commit's `files` array
(`commit.js` line 157: `{ path, hash, size }`). -/
structure FileEntry where
  path : String
  hash : String
  size : Nat
  deriving DecidableEq, Repr

/-- A staged file entry from `staging.json` (`add.js`: `{ path, hash,
size, modified, ... }`; extra diff-support fields do not affect the
claims and are omitted). -/
structure StagedFile where
  path : String
  hash : String
  size : Nat
  modified : String
  deriving DecidableEq, Repr

/-- One entry of `commits.json` (the object built in `commit.js` lines
148-162).  `parentHash` is `Option String` because the source stores
JSON `null` for the first commit. -/
structure CommitRec where
  repoId : String
  commitHash : String
  parentHash : Option String
  author : String
  message : String
  timestamp : String
  ipfsCid : String
  blockchainRecorded : Bool
  files : List FileEntry
  amended : Bool
  deriving DecidableEq, Repr

/-- One entry of `checkpoints.json` (the object built in `checkpoint.js`
lines 172-180). -/
structure CheckpointRec where
  fromCommit : String
  toCommit : String
  bundleCid : String
  merkleRoot : String
  message : String
  timestamp : String
  commitCount : Nat
  deriving DecidableEq, Repr

/-- Placeholder commit used to express JS indexing `arr[i]` (which the
source only performs at indices it has checked). -/
def dfltCommit : CommitRec :=
  { repoId := "", commitHash := "", parentHash := none, author := "", message := "",
    timestamp := "", ipfsCid := "", blockchainRecorded := false, files := [], amended := false }

instance {ε α : Type} [DecidableEq ε] [DecidableEq α] : DecidableEq (Except ε α) := fun a b =>
  match a, b with
  | .error e, .error f => decidable_of_iff (e = f) (by simp)
  | .error _, .ok _ => isFalse (by simp)
  | .ok _, .error _ => isFalse (by simp)
  | .ok x, .ok y => decidable_of_iff (x = y) (by simp)

/-! ## checkpoint.js -/

/-- Embedding of `createMerkleRoot` (checkpoint.js lines 250-257):
empty input gives `""`, a single hash is returned unchanged, otherwise
the SHA-256 of the plain concatenation (`hashes.join('')`). -/
def createMerkleRoot (hashes : List String) : String :=
  if hashes.length = 0 then ""
  else if hashes.length = 1 then hashes.getD 0 ""
  else sha256hex (String.join hashes)

/-- Typed rendering of the three range-resolution failures thrown by
checkpoint.js lines 80-88 (the source throws `Error` values whose
messages are `"From commit X not found."`, `"To commit X not found."`
and `"From commit must be before to commit."`). -/
inductive RangeError where
  | fromNotFound (id : String)
  | toNotFound (id : String)
  | invalidRange
  deriving DecidableEq, Repr

/-- The message of the thrown `Error`. -/
def RangeError.message : RangeError → String
  | .fromNotFound id => "From commit " ++ id ++ " not found."
  | .toNotFound id => "To commit " ++ id ++ " not found."
  | .invalidRange => "From commit must be before to commit."

/-- The linear scan of checkpoint.js lines 77-78:
`localCommits.findIndex(c => c.commitHash.startsWith(id))`. -/
def scanFor (cs : List CommitRec) (id : String) : Option Nat :=
  findIndex (fun c => jsStartsWith c.commitHash id) cs

/-- Range resolution of checkpoint.js lines 67-88.  `options.to` and
`options.from` default (JS falsiness: absent or `""`) to the chain
head's and the first commit's full hash, each given id is located by
`findIndex` on `startsWith`, and the index pair is returned after the
three error checks, in source order. -/
def resolveRange (cs : List CommitRec) (fromOpt toOpt : Option String) :
    Except RangeError (Nat × Nat) :=
  let toCommit :=
    match toOpt with
    | some t => if t = "" then (cs.getD (cs.length - 1) dfltCommit).commitHash else t
    | none => (cs.getD (cs.length - 1) dfltCommit).commitHash
  let fromCommit :=
    match fromOpt with
    | some f => if f = "" then (cs.getD 0 dfltCommit).commitHash else f
    | none => (cs.getD 0 dfltCommit).commitHash
  match scanFor cs fromCommit, scanFor cs toCommit with
  | none, _ => .error (.fromNotFound fromCommit)
  | some _, none => .error (.toNotFound toCommit)
  | some i, some j => if j < i then .error .invalidRange else .ok (i, j)

/-- Embedding of `localCommits.slice(fromIndex, toIndex + 1)`
(checkpoint.js line 90). -/
def rangeSlice (cs : List CommitRec) (i j : Nat) : List CommitRec :=
  (cs.drop i).take (j - i + 1)

/-- Local repository state touched by the checkpoint and push commands:
`config.json`'s `repoId`, `commits.json` and `checkpoints.json`. -/
structure RepoState where
  repoId : String
  localCommits : List CommitRec
  checkpoints : List CheckpointRec
  deriving DecidableEq, Repr

/-- CLI options of `bvc checkpoint`. -/
structure CkptOpts where
  fromOpt : Option String
  toOpt : Option String
  message : Option String
  dryRun : Bool
  deriving DecidableEq, Repr

/-- Environment of one checkpoint invocation: existence checks and the
outcomes of the awaited collaborator calls, in the order the source
awaits them.  `ipfs` is `blockchain.uploadCommitToIPFS(filesArray)`
(the argument is the deduplicated working-directory snapshot, which no
claim depends on), `tx` is `blockchain.contract.checkpoint(...)`
followed by `receipt.wait()`. -/
structure CkptEnv where
  bvcExists : Bool
  userConfigExists : Bool
  initOk : Bool
  ipfs : Except String String
  tx : Except String Unit
  now : String
  deriving DecidableEq, Repr

/-- The arguments the source passes to the on-chain
`contract.checkpoint` transaction (checkpoint.js lines 154-160). -/
structure TxArgs where
  repoId : String
  fromId : String
  toId : String
  bundleCid : String
  merkleRoot : String
  deriving DecidableEq, Repr

/-- Observable outcome of one checkpoint invocation.  `failed` is the
catch handler (checkpoint.js lines 205-208), which calls
`CLIUtils.handleError` and therefore `process.exit(1)`;
`localOnlyWarning` is the early return of lines 45-53 (warnings printed,
normal return, exit status 0). -/
inductive CkptOutcome where
  | localOnlyWarning
  | dryRunPreview (commits : List CommitRec)
  | success (submitted : TxArgs) (entry : CheckpointRec)
  | failed (msg : String)
  deriving DecidableEq, Repr

/-- Process exit status produced by each outcome: only the catch handler
exits non-zero. -/
def ckptExitCode : CkptOutcome → Nat
  | .failed _ => 1
  | _ => 0

/-- Whether the outcome prints the `"Checkpoint created successfully!"`
message (checkpoint.js line 188). -/
def ckptReportsSuccess : CkptOutcome → Bool
  | .success _ _ => true
  | _ => false

/-- Default checkpoint message `` `Checkpoint: ${n} commits` `` with the
JS falsiness of `options.message ||` (checkpoint.js line 177). -/
def ckptMessage (m : Option String) (n : Nat) : String :=
  match m with
  | some s => if s = "" then "Checkpoint: " ++ toString n ++ " commits" else s
  | none => "Checkpoint: " ++ toString n ++ " commits"

/-- Embedding of the `bvc checkpoint` action (checkpoint.js lines
28-209): the returned state is the repository state after the
invocation (the only write is the append to `checkpoints.json` at lines
182-183, performed after `receipt.wait()` resolves). -/
def checkpointAction (st : RepoState) (o : CkptOpts) (env : CkptEnv) :
    RepoState × CkptOutcome :=
  if env.bvcExists = false then
    (st, .failed "Not a BVC repository. Run \"bvc init\" first.")
  else if st.repoId = "" then
    (st, .localOnlyWarning)
  else if st.localCommits.length = 0 then
    (st, .failed "No commits found to checkpoint.")
  else
    match resolveRange st.localCommits o.fromOpt o.toOpt with
    | .error e => (st, .failed e.message)
    | .ok (i, j) =>
      let commitsInRange := rangeSlice st.localCommits i j
      if o.dryRun then (st, .dryRunPreview commitsInRange)
      else if env.userConfigExists = false then
        (st, .failed "Blockchain not configured. Run \"bvc config --setup\" first.")
      else if env.initOk = false then
        (st, .failed "Failed to connect to blockchain.")
      else
        match env.ipfs with
        | .error e => (st, .failed e)
        | .ok bundleCid =>
          let merkleRoot := createMerkleRoot (commitsInRange.map (·.commitHash))
          let fromCommitHash := (st.localCommits.getD i dfltCommit).commitHash
          let toCommitHash := (st.localCommits.getD j dfltCommit).commitHash
          match env.tx with
          | .error e => (st, .failed e)
          | .ok _ =>
            let entry : CheckpointRec :=
              { fromCommit := fromCommitHash, toCommit := toCommitHash,
                bundleCid := bundleCid, merkleRoot := merkleRoot,
                message := ckptMessage o.message commitsInRange.length,
                timestamp := env.now, commitCount := commitsInRange.length }
            ({ st with checkpoints := st.checkpoints ++ [entry] },
             .success ⟨st.repoId, fromCommitHash, toCommitHash, bundleCid, merkleRoot⟩ entry)

/-! ## commit.js -/

/-- Local state touched by the commit command: `config.json`'s `repoId`
and `author`, `staging.json` and `commits.json`. -/
structure CommitState where
  repoId : String
  configAuthor : String
  staging : List StagedFile
  commits : List CommitRec
  deriving DecidableEq, Repr

/-- CLI options of `bvc commit`. -/
structure CommitOpts where
  message : Option String
  localOnly : Bool
  amend : Bool
  deriving DecidableEq, Repr

/-- Environment of one commit invocation.  `ipfs` is
`blockchain.uploadCommitToIPFS(fullFiles)`, `record` is
`blockchain.commitToBlockchain(repoId, commitHash, ipfsCid, message)`;
`hashTime` and `commitTime` are the two separate
`new Date().toISOString()` calls at lines 84 and 154; the `prompt*`
fields are the answers the interactive inquirer prompt would return. -/
structure CommitEnv where
  bvcExists : Bool
  userConfigExists : Bool
  initOk : Bool
  ipfs : Except String String
  record : Except String Unit
  hashTime : String
  commitTime : String
  promptMessage : String
  promptConfirm : Bool
  envUser : Option String
  deriving DecidableEq, Repr

/-- Observable outcome of one commit invocation.  `created`/`amendedLast`
end in `spinner.succeed('Commit created successfully!')` with exit 0;
`warned` records whether the catch handler at lines 125-129 ran (the
`'Blockchain operation failed'` warning). -/
inductive CommitOutcome where
  | notARepo
  | nothingToCommit
  | cancelled
  | noMessage
  | created (c : CommitRec) (warned : Bool)
  | amendedLast (c : CommitRec) (warned : Bool)
  deriving DecidableEq, Repr

/-- The author string of commit.js line 152:
`config.author || process.env.USER || 'unknown'`. -/
def commitAuthor (configAuthor : String) (envUser : Option String) : String :=
  if configAuthor ≠ "" then configAuthor
  else match envUser with
    | some u => if u ≠ "" then u else "unknown"
    | none => "unknown"

/-- The remote section of commit.js lines 92-134, returning
`(ipfsCid, blockchainSuccess, warned)`.  The try/catch wraps only the
IPFS upload and the record-commit call; `blockchain.initialize`
returning `false` or a missing user config silently skip the remote
step without a warning from the catch handler. -/
def commitRemote (repoId : String) (o : CommitOpts) (env : CommitEnv) :
    String × Bool × Bool :=
  if o.localOnly then ("", false, false)
  else if env.userConfigExists = false then ("", false, false)
  else if env.initOk = false then ("", false, false)
  else
    match env.ipfs with
    | .error _ => ("", false, true)
    | .ok cid =>
      if repoId ≠ "" ∧ cid ≠ "" then
        match env.record with
        | .error _ => (cid, false, true)
        | .ok _ => (cid, true, false)
      else (cid, false, false)

/-- Embedding of the `bvc commit` action (commit.js lines 24-207).
Adds the new commit (or replaces the tail on a successful amend),
clears staging, and reports what happened. -/
def commitAction (st : CommitState) (o : CommitOpts) (env : CommitEnv) :
    CommitState × CommitOutcome :=
  if env.bvcExists = false then (st, .notARepo)
  else if st.staging.length = 0 ∧ o.amend = false then (st, .nothingToCommit)
  else
    -- message resolution, lines 43-77: prompt whenever `options.message`
    -- is absent or empty, with a confirm question when files are staged
    let given := match o.message with | some m => if m = "" then none else some m | none => none
    let viaPrompt := given.isNone
    let m := match given with | some m => m | none => env.promptMessage
    if viaPrompt ∧ st.staging.length > 0 ∧ env.promptConfirm = false then (st, .cancelled)
    else if m = "" then (st, .noMessage)
    else
      let fileHashes := jsSortStrings (st.staging.map (·.hash))
      let commitContent := String.join fileHashes ++ m ++ env.hashTime
      let commitHash := sha256hex commitContent
      let parentHash := if st.commits.length > 0 then
          some (st.commits.getD (st.commits.length - 1) dfltCommit).commitHash
        else none
      let r := commitRemote st.repoId o env
      let ipfsCid := r.1
      let blockchainSuccess := r.2.1
      let warned := r.2.2
      if o.amend = true ∧ st.commits.length > 0 then
        let last := st.commits.getD (st.commits.length - 1) dfltCommit
        let replaced := { last with message := m, timestamp := env.commitTime, amended := true }
        ({ st with commits := st.commits.set (st.commits.length - 1) replaced, staging := [] },
         .amendedLast replaced warned)
      else
        let newCommit : CommitRec :=
          { repoId := st.repoId, commitHash := commitHash, parentHash := parentHash,
            author := commitAuthor st.configAuthor env.envUser, message := m,
            timestamp := env.commitTime, ipfsCid := ipfsCid,
            blockchainRecorded := blockchainSuccess,
            files := st.staging.map (fun f => ⟨f.path, f.hash, f.size⟩),
            amended := false }
        ({ st with commits := st.commits ++ [newCommit], staging := [] },
         .created newCommit warned)

/-- The commit-id derivation stated by the specification: Content Hasher
of the lexicographically sorted staged digests concatenated with the
message and the timestamp (commit.js lines 82-87). -/
def commitHashOf (hashes : List String) (msg ts : String) : String :=
  sha256hex (String.join (jsSortStrings hashes) ++ msg ++ ts)

/-! ## push (revert.js, second document: the implemented push command) -/

/-- CLI options of `bvc push`. -/
structure PushOpts where
  commitHash : Option String
  dryRun : Bool
  force : Bool
  deriving DecidableEq, Repr

/-- Environment of one push invocation.  `sync` is
`blockchain.syncLocalCommitsToBlockchain` (the unpushed commits it
reports), `record` maps each commit hash to the outcome of its
`blockchain.commitToBlockchain` call. -/
structure PushEnv where
  bvcExists : Bool
  userConfigFound : Bool
  initOk : Bool
  sync : Except String (List CommitRec)
  record : String → Except String Unit

/-- Observable outcome of one push invocation.  Only `failed` (the
catch handler calling `CLIUtils.handleError`) exits non-zero;
`localOnlyWarning` is the early return on an empty `repoId` (warnings
printed, exit status 0). -/
inductive PushOutcome where
  | localOnlyWarning
  | noCommits
  | allPushed
  | dryRunPreview (commits : List CommitRec)
  | pushed (count : Nat)
  | failed (msg : String)
  deriving DecidableEq, Repr

/-- Exit status of each push outcome. -/
def pushExitCode : PushOutcome → Nat
  | .failed _ => 1
  | _ => 0

/-- Whether the outcome prints a success message
(`"Successfully pushed ..."` or `"All commits already pushed ..."`). -/
def pushReportsSuccess : PushOutcome → Bool
  | .pushed _ => true
  | .allPushed => true
  | _ => false

/-- The per-commit push loop: on a failed `commitToBlockchain` call the
error is rethrown unless `--force`, which skips the commit instead. -/
def pushLoop (record : String → Except String Unit) (force : Bool) :
    List CommitRec → Nat → Except String Nat
  | [], n => .ok n
  | c :: rest, n =>
    match record c.commitHash with
    | .ok _ => pushLoop record force rest (n + 1)
    | .error e => if force then pushLoop record force rest n else .error e

/-- Embedding of the `bvc push` action.  Push never writes local state,
so only the outcome is returned. -/
def pushAction (st : RepoState) (o : PushOpts) (env : PushEnv) : PushOutcome :=
  if env.bvcExists = false then .failed "Not a BVC repository. Run \"bvc init\" first."
  else if st.repoId = "" then .localOnlyWarning
  else if st.localCommits.length = 0 then .noCommits
  else if env.userConfigFound = false then
    .failed "Blockchain not configured. Run \"bvc config --setup\" first."
  else if env.initOk = false then .failed "Failed to connect to blockchain."
  else
    match env.sync with
    | .error e => .failed e
    | .ok unpushed =>
      if unpushed.length = 0 then .allPushed
      else
        let filtered : Except String (List CommitRec) := match o.commitHash with
          | some h =>
            if h = "" then .ok unpushed
            else
              let sel := unpushed.filter (fun c => jsStartsWith c.commitHash h)
              if sel.length = 0 then
                .error ("Commit " ++ h ++ " not found or already pushed.")
              else .ok sel
          | none => .ok unpushed
        match filtered with
        | .error e => .failed e
        | .ok commitsToPush =>
          if o.dryRun then .dryRunPreview commitsToPush
          else
            match pushLoop env.record o.force commitsToPush 0 with
            | .error e => .failed e
            | .ok n => .pushed n

/-! ## add.js: staging upserts -/

/-- Upsert of the first add.js document, lines 49-51:
`staging.files = staging.files.filter(f => f.path !== stagedFile.path);
staging.files.push(stagedFile);`. -/
def stageUpsert (files : List StagedFile) (e : StagedFile) : List StagedFile :=
  (files.filter fun f => f.path ≠ e.path) ++ [e]

/-- Upsert of `addSingleFile` in the third add.js document, lines
393-452: locate an existing entry for the path with `findIndex`,
replace it in place, or append a new entry. -/
def addSingleFile (files : List StagedFile) (e : StagedFile) : List StagedFile :=
  match findIndex (fun f => f.path = e.path) files with
  | some i => files.set i e
  | none => files ++ [e]

/-- The staging-set invariant: at most one entry per distinct path. -/
def pathsNodup (files : List StagedFile) : Prop := (files.map (·.path)).Nodup

instance (files : List StagedFile) : Decidable (pathsNodup files) := by
  unfold pathsNodup; infer_instance

/-! ## add.js: directory expansion -/

/-- A directory tree, abstracting what `fs.readdir`/`fs.stat` observe. -/
inductive FSEntry where
  | file (name : String)
  | dir (name : String) (children : List FSEntry)

/-- The directory-exclusion list of `getAllFilesInDirectory`
(add.js line 366). -/
def excludeDirs : List String := [".bvc", "node_modules", ".git", "artifacts", "cache"]

/-- The recursive `scanDir` helper inside `getAllFilesInDirectory`
(add.js lines 368-388): recurse into subdirectories not on the
exclusion list, collect non-hidden files, with paths accumulated from
the root.  Result paths are relative to the scanned root. -/
def scanDir (pre : String) : List FSEntry → List String
  | [] => []
  | (FSEntry.file name) :: rest =>
      (if jsStartsWith name "." then [] else [pre ++ name]) ++ scanDir pre rest
  | (FSEntry.dir name children) :: rest =>
      (if name ∈ excludeDirs then [] else scanDir (pre ++ name ++ "/") children) ++
        scanDir pre rest

/-- Embedding of `getAllFilesInDirectory(dirPath)` (add.js lines
364-391), the recursive expansion the source applies only to the
special path `"."`. -/
def getAllFilesInDirectory (items : List FSEntry) : List String := scanDir "" items

/-- The directory branch of the add action (third add.js document,
lines 269-287): `fs.readdir(filePath)` once, then stage each direct
child that is a regular file and not hidden — no recursion into
subdirectories.  `d` is the directory path as given; staged paths are
`path.join(filePath, dirFile)` relativized, that is `d ++ "/" ++ name`. -/
def dirBranchStagedPaths (d : String) (children : List FSEntry) : List String :=
  children.filterMap fun it =>
    match it with
    | .file n => if jsStartsWith n "." then none else some (d ++ "/" ++ n)
    | .dir _ _ => none

/-- Modelled from the spec: the claim's recursive expansion of a
directory to all regular files it transitively contains, excluding
hidden entries and the configured exclusion list, with paths relative
to the directory.  Used to compare the claimed behavior with the
directory branch the source actually runs. -/
def specRecursiveFiles : List FSEntry → List String
  | [] => []
  | (FSEntry.file n) :: rest =>
      (if jsStartsWith n "." then [] else [n]) ++ specRecursiveFiles rest
  | (FSEntry.dir d children) :: rest =>
      (if d ∈ excludeDirs then []
       else (specRecursiveFiles children).map (fun q => d ++ "/" ++ q)) ++
        specRecursiveFiles rest

/-! ## Derived forms used by the theorems -/

/-- The commit record the non-amend branch of `commitAction` builds,
spelled out (commit.js lines 148-162). -/
def commitNew (st : CommitState) (o : CommitOpts) (env : CommitEnv) (m : String) : CommitRec :=
  { repoId := st.repoId,
    commitHash := sha256hex (String.join (jsSortStrings (st.staging.map (·.hash))) ++ m ++ env.hashTime),
    parentHash := if st.commits.length > 0 then
        some (st.commits.getD (st.commits.length - 1) dfltCommit).commitHash
      else none,
    author := commitAuthor st.configAuthor env.envUser,
    message := m,
    timestamp := env.commitTime,
    ipfsCid := (commitRemote st.repoId o env).1,
    blockchainRecorded := (commitRemote st.repoId o env).2.1,
    files := st.staging.map (fun f => ⟨f.path, f.hash, f.size⟩),
    amended := false }

/-- Projection: the aggregate digest a successful checkpoint submitted
on-chain and recorded locally. -/
def successDigests : CkptOutcome → Option (String × String)
  | .success args entry => some (args.merkleRoot, entry.merkleRoot)
  | _ => none

/-- Projection: the `parentHash` of a freshly created commit. -/
def createdParent : CommitOutcome → Option (Option String)
  | .created c _ => some c.parentHash
  | _ => none

/-! ## Concrete instances -/

/-- A commit record with a given hash and otherwise empty fields. -/
def demoCommit (h : String) : CommitRec := { dfltCommit with commitHash := h }

/-- The chain `[C1, C2, C3, C4]` of the claim's example. -/
def demoChain : List CommitRec :=
  [demoCommit "c1aa", demoCommit "c2bb", demoCommit "c3cc", demoCommit "c4dd"]

/-- SHA-256 of the empty string (a realistic 64-hex commit id). -/
def hashA : String := "e3b0c44298fc1c149afbf4c8996fb92427ae41e4649b934ca495991b7852b855"

/-- SHA-256 of `"abc"` (a second realistic 64-hex commit id). -/
def hashB : String := "ba7816bf8f01cfea414140de5dae2223b00361a396177a9cb410ff61f20015ad"

/-- A blockchain-enabled repository with two local commits. -/
def ck2St : RepoState :=
  { repoId := "repo-1", localCommits := [demoCommit hashA, demoCommit hashB], checkpoints := [] }

/-- A blockchain-enabled repository with one local commit. -/
def ck1St : RepoState :=
  { repoId := "repo-1", localCommits := [demoCommit hashA], checkpoints := [] }

/-- A local-only repository (empty `repoId`). -/
def ck0St : RepoState :=
  { repoId := "", localCommits := [demoCommit hashA], checkpoints := [] }

/-- Checkpoint options: full default range, a message, no dry run. -/
def ckOpts : CkptOpts :=
  { fromOpt := none, toOpt := none, message := some "batch", dryRun := false }

/-- Environment where every collaborator call succeeds. -/
def ckEnvOk : CkptEnv :=
  { bvcExists := true, userConfigExists := true, initOk := true,
    ipfs := .ok "QmBundle", tx := .ok (), now := "2026-01-01T00:00:00.000Z" }

/-- Environment where the on-chain checkpoint transaction fails. -/
def ckEnvTxFail : CkptEnv :=
  { ckEnvOk with tx := .error "insufficient funds" }

/-- The checkpoint entry a fully successful run over `ck2St` records. -/
def ckEntry2 : CheckpointRec :=
  { fromCommit := hashA, toCommit := hashB, bundleCid := "QmBundle",
    merkleRoot := sha256hex (hashA ++ hashB), message := "batch",
    timestamp := "2026-01-01T00:00:00.000Z", commitCount := 2 }

/-- The transaction arguments of that run. -/
def ckArgs2 : TxArgs :=
  { repoId := "repo-1", fromId := hashA, toId := hashB,
    bundleCid := "QmBundle", merkleRoot := sha256hex (hashA ++ hashB) }

/-- Push options: no filter, no dry run, no force. -/
def pushOptsPlain : PushOpts := { commitHash := none, dryRun := false, force := false }

/-- Push environment where every collaborator call succeeds. -/
def pushEnvOk : PushEnv :=
  { bvcExists := true, userConfigFound := true, initOk := true,
    sync := .ok [], record := fun _ => .ok () }

/-- The staged `README.md` of the end-to-end claim (content `"# demo"`,
six bytes). -/
def readmeStaged : StagedFile :=
  { path := "README.md", hash := sha256hex "# demo", size := 6,
    modified := "2026-01-01T00:00:00.000Z" }

/-- A fresh local-only repository with `README.md` staged. -/
def cmSt : CommitState :=
  { repoId := "", configAuthor := "demo", staging := [readmeStaged], commits := [] }

/-- Options of `commit --local-only -m "first"`. -/
def cmOpts : CommitOpts := { message := some "first", localOnly := true, amend := false }

/-- Commit environment for a local-only commit (remote fields unused). -/
def cmEnv : CommitEnv :=
  { bvcExists := true, userConfigExists := false, initOk := false,
    ipfs := .error "unused", record := .error "unused",
    hashTime := "2026-01-01T00:00:00.000Z", commitTime := "2026-01-01T00:00:00.100Z",
    promptMessage := "", promptConfirm := true, envUser := none }

/-- A blockchain-configured repository state for the remote-failure
commit claim. -/
def cmStRemote : CommitState :=
  { repoId := "repo-1", configAuthor := "demo", staging := [readmeStaged], commits := [] }

/-- Options of a plain `commit -m` without `--local-only`. -/
def cmOptsRemote : CommitOpts := { message := some "first", localOnly := false, amend := false }

/-- Commit environment in which the IPFS upload fails. -/
def cmEnvIpfsFail : CommitEnv :=
  { cmEnv with userConfigExists := true, initOk := true, ipfs := .error "IPFS daemon unreachable" }

/-- Commit environment in which the upload succeeds and the on-chain
record-commit call fails. -/
def cmEnvRecordFail : CommitEnv :=
  { cmEnv with
    userConfigExists := true
    initOk := true
    ipfs := .ok "QmFiles"
    record := .error "transaction reverted" }

/-- Two staged snapshots of the same path with different digests. -/
def stagedOld : StagedFile :=
  { path := "a.txt", hash := "1111", size := 1, modified := "t1" }

/-- The newer snapshot of `a.txt`. -/
def stagedNew : StagedFile :=
  { path := "a.txt", hash := "2222", size := 2, modified := "t2" }

/-- A staged entry for a different path. -/
def stagedother : StagedFile :=
  { path := "b.txt", hash := "3333", size := 3, modified := "t3" }

/-- A directory with one top-level file and one nested file. -/
def nestedTree : List FSEntry :=
  [FSEntry.file "a.txt", FSEntry.dir "sub" [FSEntry.file "b.txt"]]

/-! ## Helper lemmas -/

theorem jsStartsWith_self (s : String) : jsStartsWith s s = true := by
  simp [jsStartsWith, List.isPrefixOf_iff_prefix]

theorem findIndex_eq_none_iff {α : Type} (p : α → Bool) (l : List α) :
    findIndex p l = none ↔ ∀ a ∈ l, p a = false := by
  induction l with
  | nil => simp [findIndex]
  | cons a l ih => cases hpa : p a <;> simp [findIndex, hpa, ih]

theorem findIndex_eq_some_iff {α : Type} (p : α → Bool) (d : α) (l : List α) (n : Nat) :
    findIndex p l = some n ↔
      n < l.length ∧ p (l.getD n d) = true ∧ ∀ k, k < n → p (l.getD k d) = false := by
  induction l generalizing n with
  | nil => simp [findIndex]
  | cons a l ih =>
    cases hpa : p a with
    | true =>
      simp only [findIndex, hpa, if_pos]
      constructor
      · rintro h
        injection h with h
        subst h
        exact ⟨by simp, by simpa using hpa, by omega⟩
      · rintro ⟨hn, hp, hmin⟩
        rcases n with _ | n
        · rfl
        · have := hmin 0 (by omega)
          simp [hpa] at this
    | false =>
      simp only [findIndex, hpa, if_neg, Bool.false_eq_true, not_false_iff]
      rcases n with _ | n
      · simp [hpa]
      · simp only [Option.map_eq_some']
        constructor
        · rintro ⟨m, hm, hmn⟩
          have hmn' : m = n := by omega
          rcases (ih m).mp hm with ⟨hn, hp, hmin⟩
          subst hmn'
          refine ⟨by simpa using hn, by simpa using hp, ?_⟩
          intro k hk
          rcases k with _ | k
          · simpa using hpa
          · simpa using hmin k (by omega)
        · rintro ⟨hn, hp, hmin⟩
          refine ⟨n, (ih n).mpr ⟨by simpa using hn, by simpa using hp, ?_⟩, rfl⟩
          intro k hk
          simpa using hmin (k + 1) (by omega)

theorem findIndex_lt_length {α : Type} {p : α → Bool} {l : List α} {n : Nat}
    (h : findIndex p l = some n) : n < l.length := by
  classical
  rcases l with _ | ⟨a, l⟩
  · simp [findIndex] at h
  · exact ((findIndex_eq_some_iff p a (a :: l) n).mp h).1

theorem rangeSlice_length (cs : List CommitRec) (i j : Nat)
    (hij : i ≤ j) (hj : j < cs.length) :
    (rangeSlice cs i j).length = j - i + 1 := by
  simp only [rangeSlice, List.length_take, List.length_drop]
  omega

theorem rangeSlice_getD (cs : List CommitRec) (i j k : Nat)
    (hk : k ≤ j - i) :
    (rangeSlice cs i j).getD k dfltCommit = cs.getD (i + k) dfltCommit := by
  simp only [rangeSlice, List.getD_eq_getElem?_getD, List.getElem?_take,
    List.getElem?_drop]
  rw [if_pos (by omega)]

theorem scanFor_head (cs : List CommitRec) (hne : cs ≠ []) :
    scanFor cs (cs.getD 0 dfltCommit).commitHash = some 0 := by
  rcases cs with _ | ⟨a, l⟩
  · exact absurd rfl hne
  · simp [scanFor, findIndex, jsStartsWith_self]

theorem scanFor_last (cs : List CommitRec) (hne : cs ≠ [])
    (huniq : ∀ i j : Fin cs.length,
      jsStartsWith (cs.get i).commitHash (cs.get j).commitHash = true → i = j) :
    scanFor cs (cs.getD (cs.length - 1) dfltCommit).commitHash = some (cs.length - 1) := by
  have hlen : 0 < cs.length := List.length_pos.mpr hne
  rw [scanFor, findIndex_eq_some_iff _ dfltCommit]
  refine ⟨by omega, jsStartsWith_self _, ?_⟩
  intro k hk
  by_contra hcon
  have hk' : k < cs.length := by omega
  have htrue : jsStartsWith (cs.getD k dfltCommit).commitHash
      (cs.getD (cs.length - 1) dfltCommit).commitHash = true := by
    revert hcon
    cases jsStartsWith (cs.getD k dfltCommit).commitHash
        (cs.getD (cs.length - 1) dfltCommit).commitHash <;> simp
  rw [List.getD_eq_getElem cs dfltCommit hk',
      List.getD_eq_getElem cs dfltCommit (by omega : cs.length - 1 < cs.length)] at htrue
  have := huniq ⟨k, hk'⟩ ⟨cs.length - 1, by omega⟩ (by simpa using htrue)
  have : k = cs.length - 1 := congrArg Fin.val this
  omega

/-! ## Claim C2: checkpoint range resolution -/

/-- C2: over a non-empty commit chain (with prefix-unambiguous commit
ids), an unspecified from-id resolves to the first commit and an
unspecified to-id to the chain head; a given id is located by linear
scan on `startsWith`; an unmatched id fails with the commit-not-found
error, a from-position after the to-position fails with the
invalid-range error, and otherwise exactly the inclusive contiguous
slice `[fromIndex, toIndex]` is selected. -/
theorem checkpoint_range_resolution (cs : List CommitRec) (hne : cs ≠ [])
    (huniq : ∀ i j : Fin cs.length,
      jsStartsWith (cs.get i).commitHash (cs.get j).commitHash = true → i = j) :
    resolveRange cs none none = .ok (0, cs.length - 1)
  ∧ (∀ f i, f ≠ "" → scanFor cs f = some i →
      resolveRange cs (some f) none = .ok (i, cs.length - 1))
  ∧ (∀ t j, t ≠ "" → scanFor cs t = some j →
      resolveRange cs none (some t) = .ok (0, j))
  ∧ (∀ f t, f ≠ "" → t ≠ "" → scanFor cs f = none →
      resolveRange cs (some f) (some t) = .error (.fromNotFound f))
  ∧ (∀ f t i, f ≠ "" → t ≠ "" → scanFor cs f = some i → scanFor cs t = none →
      resolveRange cs (some f) (some t) = .error (.toNotFound t))
  ∧ (∀ f t i j, f ≠ "" → t ≠ "" → scanFor cs f = some i → scanFor cs t = some j →
      j < i → resolveRange cs (some f) (some t) = .error .invalidRange)
  ∧ (∀ f t i j, f ≠ "" → t ≠ "" → scanFor cs f = some i → scanFor cs t = some j →
      i ≤ j → resolveRange cs (some f) (some t) = .ok (i, j)
        ∧ (rangeSlice cs i j).length = j - i + 1
        ∧ ∀ k, k ≤ j - i →
            (rangeSlice cs i j).getD k dfltCommit = cs.getD (i + k) dfltCommit) := by
  have hhead := scanFor_head cs hne
  have hlast := scanFor_last cs hne huniq
  simp only [List.getD_eq_getElem?_getD] at hhead hlast
  refine ⟨?_, ?_, ?_, ?_, ?_, ?_, ?_⟩
  · simp [resolveRange, hhead, hlast]
  · intro f i hf hscan
    have hi : i < cs.length := findIndex_lt_length hscan
    simp [resolveRange, hf, hscan, hlast]
    omega
  · intro t j ht hscan
    simp [resolveRange, ht, hscan, hhead]
  · intro f t hf ht hscan
    simp [resolveRange, hf, ht, hscan]
  · intro f t i hf ht hscanf hscant
    simp [resolveRange, hf, ht, hscanf, hscant]
  · intro f t i j hf ht hscanf hscant hji
    simp [resolveRange, hf, ht, hscanf, hscant, hji]
  · intro f t i j hf ht hscanf hscant hij
    have hj : j < cs.length := findIndex_lt_length hscant
    refine ⟨?_, rangeSlice_length cs i j hij hj, fun k hk => rangeSlice_getD cs i j k hk⟩
    simp [resolveRange, hf, ht, hscanf, hscant]
    omega

/-- Witness for C2: `checkpoint --from c1 --to c3` over the chain
`[c1aa, c2bb, c3cc, c4dd]` selects exactly the first three commits. -/
theorem checkpoint_range_resolution_witness :
    resolveRange demoChain (some "c1") (some "c3") = .ok (0, 2)
    ∧ (rangeSlice demoChain 0 2).length = 3
    ∧ rangeSlice demoChain 0 2 = [demoCommit "c1aa", demoCommit "c2bb", demoCommit "c3cc"] := by
  have h := (checkpoint_range_resolution demoChain (by decide) (by decide)).2.2.2.2.2.2
    "c1" "c3" 0 2 (by decide) (by decide) (by decide) (by decide) (by omega)
  exact ⟨h.1, by simpa using h.2.1, by decide⟩

/-! ## Checkpoint behavior lemmas -/

theorem createMerkleRoot_single (hashes : List String) (h : hashes.length = 1) :
    createMerkleRoot hashes = hashes.getD 0 "" := by
  simp [createMerkleRoot, h]

theorem createMerkleRoot_many (hashes : List String) (h : 2 ≤ hashes.length) :
    createMerkleRoot hashes = sha256hex (String.join hashes) := by
  unfold createMerkleRoot
  rw [if_neg (by omega), if_neg (by omega)]

theorem checkpointAction_ok (st : RepoState) (o : CkptOpts) (env : CkptEnv)
    (i j : Nat) (cid : String)
    (hbvc : env.bvcExists = true) (hrepo : st.repoId ≠ "")
    (hne : st.localCommits ≠ [])
    (hres : resolveRange st.localCommits o.fromOpt o.toOpt = .ok (i, j))
    (hdry : o.dryRun = false) (hcfg : env.userConfigExists = true)
    (hinit : env.initOk = true) (hipfs : env.ipfs = .ok cid) (htx : env.tx = .ok ()) :
    checkpointAction st o env =
      ({ st with checkpoints := st.checkpoints ++
          [{ fromCommit := (st.localCommits.getD i dfltCommit).commitHash,
             toCommit := (st.localCommits.getD j dfltCommit).commitHash,
             bundleCid := cid,
             merkleRoot := createMerkleRoot ((rangeSlice st.localCommits i j).map (·.commitHash)),
             message := ckptMessage o.message (rangeSlice st.localCommits i j).length,
             timestamp := env.now,
             commitCount := (rangeSlice st.localCommits i j).length }] },
       .success
         ⟨st.repoId, (st.localCommits.getD i dfltCommit).commitHash,
          (st.localCommits.getD j dfltCommit).commitHash, cid,
          createMerkleRoot ((rangeSlice st.localCommits i j).map (·.commitHash))⟩
         { fromCommit := (st.localCommits.getD i dfltCommit).commitHash,
           toCommit := (st.localCommits.getD j dfltCommit).commitHash,
           bundleCid := cid,
           merkleRoot := createMerkleRoot ((rangeSlice st.localCommits i j).map (·.commitHash)),
           message := ckptMessage o.message (rangeSlice st.localCommits i j).length,
           timestamp := env.now,
           commitCount := (rangeSlice st.localCommits i j).length }) := by
  have hlen : st.localCommits.length ≠ 0 := by
    simpa [List.length_eq_zero] using hne
  simp [checkpointAction, hbvc, hrepo, hlen, hres, hdry, hcfg, hinit, hipfs, htx]

theorem checkpoint_state_unchanged_of_tx_error (st : RepoState) (o : CkptOpts) (env : CkptEnv)
    (e : String) (htx : env.tx = .error e) :
    (checkpointAction st o env).1 = st := by
  simp only [checkpointAction, htx]
  repeat' split
  all_goals rfl

theorem checkpoint_no_success_of_tx_error (st : RepoState) (o : CkptOpts) (env : CkptEnv)
    (e : String) (args : TxArgs) (entry : CheckpointRec) (htx : env.tx = .error e) :
    (checkpointAction st o env).2 ≠ .success args entry := by
  simp only [checkpointAction, htx]
  repeat' split
  all_goals simp

/-! ## Claim C1: the aggregate checkpoint digest -/

/-- C1 (amended): for every successful checkpoint, the aggregate digest
submitted on-chain and the one recorded in the local checkpoint entry
both equal `createMerkleRoot` of the range's ordered commit ids, which
is the Content Hasher (SHA-256, hex) of their ordered concatenation
whenever the range holds at least two commits; for a single-commit
range it is that commit's id itself, unhashed. -/
theorem checkpoint_aggregate_digest (st : RepoState) (o : CkptOpts) (env : CkptEnv)
    (i j : Nat) (cid : String)
    (hbvc : env.bvcExists = true) (hrepo : st.repoId ≠ "")
    (hne : st.localCommits ≠ [])
    (hres : resolveRange st.localCommits o.fromOpt o.toOpt = .ok (i, j))
    (hdry : o.dryRun = false) (hcfg : env.userConfigExists = true)
    (hinit : env.initOk = true) (hipfs : env.ipfs = .ok cid) (htx : env.tx = .ok ()) :
    successDigests (checkpointAction st o env).2 =
      some (createMerkleRoot ((rangeSlice st.localCommits i j).map (·.commitHash)),
            createMerkleRoot ((rangeSlice st.localCommits i j).map (·.commitHash)))
    ∧ (checkpointAction st o env).1.checkpoints.map (·.merkleRoot) =
        st.checkpoints.map (·.merkleRoot) ++
          [createMerkleRoot ((rangeSlice st.localCommits i j).map (·.commitHash))]
    ∧ (2 ≤ ((rangeSlice st.localCommits i j).map (·.commitHash)).length →
        createMerkleRoot ((rangeSlice st.localCommits i j).map (·.commitHash)) =
          sha256hex (String.join ((rangeSlice st.localCommits i j).map (·.commitHash))))
    ∧ (((rangeSlice st.localCommits i j).map (·.commitHash)).length = 1 →
        createMerkleRoot ((rangeSlice st.localCommits i j).map (·.commitHash)) =
          ((rangeSlice st.localCommits i j).map (·.commitHash)).getD 0 "") := by
  rw [checkpointAction_ok st o env i j cid hbvc hrepo hne hres hdry hcfg hinit hipfs htx]
  refine ⟨rfl, by simp, createMerkleRoot_many _, createMerkleRoot_single _⟩

set_option maxRecDepth 1000000 in
/-- Witness for C1: a two-commit checkpoint records
`sha256hex (hashA ++ hashB)` both on-chain and locally. -/
theorem checkpoint_aggregate_digest_witness :
    resolveRange ck2St.localCommits ckOpts.fromOpt ckOpts.toOpt = .ok (0, 1)
    ∧ successDigests (checkpointAction ck2St ckOpts ckEnvOk).2 =
        some (sha256hex (hashA ++ hashB), sha256hex (hashA ++ hashB)) := by
  have h := checkpoint_aggregate_digest ck2St ckOpts ckEnvOk 0 1 "QmBundle"
    rfl (by decide) (by decide) (by decide) rfl rfl rfl rfl rfl
  refine ⟨by decide, ?_⟩
  rw [h.1, h.2.2.1 (by decide)]
  decide

set_option maxRecDepth 1000000 in
/-- Counterexample for C1 as stated: over the single-commit range the
recorded digest is the commit id itself, not the Content Hasher applied
to the (one-element) concatenation of the range's commit ids. -/
theorem checkpoint_aggregate_digest_counterexample :
    successDigests (checkpointAction ck1St ckOpts ckEnvOk).2 = some (hashA, hashA)
    ∧ sha256hex (String.join ((rangeSlice ck1St.localCommits 0 0).map (·.commitHash))) =
        "cd372fb85148700fa88095e3492d3f9f5beb43e555e5ff26d95f5a6adc36f8e6"
    ∧ successDigests (checkpointAction ck1St ckOpts ckEnvOk).2 ≠
        some (sha256hex (String.join ((rangeSlice ck1St.localCommits 0 0).map (·.commitHash))),
              sha256hex (String.join ((rangeSlice ck1St.localCommits 0 0).map (·.commitHash)))) := by
  refine ⟨by decide, by decide, by decide⟩

/-! ## Claim C3: remote checkpoint failure leaves the local log unchanged -/

/-- C3: if the on-chain record-checkpoint transaction fails, the error
is surfaced (the catch handler exits non-zero with that message) and
the repository state — in particular `checkpoints.json` — is unchanged;
moreover a checkpoint entry is ever appended only when the remote
transaction succeeded. -/
theorem checkpoint_remote_failure_surfaces (st : RepoState) (o : CkptOpts) (env : CkptEnv)
    (i j : Nat) (cid e : String)
    (hbvc : env.bvcExists = true) (hrepo : st.repoId ≠ "")
    (hne : st.localCommits ≠ [])
    (hres : resolveRange st.localCommits o.fromOpt o.toOpt = .ok (i, j))
    (hdry : o.dryRun = false) (hcfg : env.userConfigExists = true)
    (hinit : env.initOk = true) (hipfs : env.ipfs = .ok cid) (htx : env.tx = .error e) :
    checkpointAction st o env = (st, .failed e)
    ∧ ckptExitCode (checkpointAction st o env).2 = 1
    ∧ ∀ (st' : RepoState) (o' : CkptOpts) (env' : CkptEnv),
        (checkpointAction st' o' env').1.checkpoints ≠ st'.checkpoints → env'.tx = .ok () := by
  have hlen : st.localCommits.length ≠ 0 := by
    simpa [List.length_eq_zero] using hne
  have hmain : checkpointAction st o env = (st, .failed e) := by
    simp [checkpointAction, hbvc, hrepo, hlen, hres, hdry, hcfg, hinit, hipfs, htx]
  refine ⟨hmain, by rw [hmain]; rfl, ?_⟩
  intro st' o' env' hch
  rcases henv : env'.tx with e' | u
  · exact absurd
      (congrArg RepoState.checkpoints (checkpoint_state_unchanged_of_tx_error st' o' env' e' henv))
      hch
  · cases u
    rfl

set_option maxRecDepth 1000000 in
/-- Witness for C3: with the transaction failing on a two-commit
repository, the action surfaces the error and `checkpoints.json` stays
empty. -/
theorem checkpoint_remote_failure_surfaces_witness :
    checkpointAction ck2St ckOpts ckEnvTxFail = (ck2St, .failed "insufficient funds")
    ∧ (checkpointAction ck2St ckOpts ckEnvTxFail).1.checkpoints = [] := by
  have h := checkpoint_remote_failure_surfaces ck2St ckOpts ckEnvTxFail 0 1 "QmBundle"
    "insufficient funds" rfl (by decide) (by decide) (by decide) rfl rfl rfl rfl rfl
  exact ⟨h.1, by rw [h.1]; rfl⟩

/-! ## Claim C10: checkpoint never rewrites commits.json -/

/-- C10: every checkpoint invocation leaves `commits.json` (and the
repository id) unchanged — in particular the `blockchainRecorded`
flags of the anchored commits are untouched — and a successful run
changes the state only by appending its one entry to
`checkpoints.json`. -/
theorem checkpoint_commits_frame (st : RepoState) (o : CkptOpts) (env : CkptEnv) :
    (checkpointAction st o env).1.localCommits = st.localCommits
    ∧ (checkpointAction st o env).1.repoId = st.repoId
    ∧ ∀ (args : TxArgs) (entry : CheckpointRec),
        (checkpointAction st o env).2 = .success args entry →
          (checkpointAction st o env).1.checkpoints = st.checkpoints ++ [entry] := by
  refine ⟨?_, ?_, ?_⟩
  · simp only [checkpointAction]
    repeat' split
    all_goals rfl
  · simp only [checkpointAction]
    repeat' split
    all_goals rfl
  · intro args entry h
    revert h
    simp only [checkpointAction]
    repeat' split
    all_goals intro h
    all_goals simp_all

set_option maxRecDepth 1000000 in
/-- Witness for C10: on the successful two-commit run, `commits.json`
is untouched and `checkpoints.json` gains exactly the one entry. -/
theorem checkpoint_commits_frame_witness :
    (checkpointAction ck2St ckOpts ckEnvOk).1.localCommits = ck2St.localCommits
    ∧ (checkpointAction ck2St ckOpts ckEnvOk).1.checkpoints = ck2St.checkpoints ++ [ckEntry2] := by
  have h := checkpoint_commits_frame ck2St ckOpts ckEnvOk
  exact ⟨h.1, h.2.2 ckArgs2 ckEntry2 (by decide)⟩

/-! ## Claim C4: failing loudly when the remote effect is unavailable -/

set_option maxRecDepth 1000000 in
/-- Counterexample for C4 as stated: on a repository whose `repoId` is
empty, both checkpoint and push print a warning and return with exit
status 0 — not a non-zero outcome — while skipping the remote step
(though indeed without reporting success). -/
theorem checkpoint_local_only_counterexample :
    checkpointAction ck0St ckOpts ckEnvOk = (ck0St, .localOnlyWarning)
    ∧ ckptExitCode (checkpointAction ck0St ckOpts ckEnvOk).2 = 0
    ∧ ckptReportsSuccess (checkpointAction ck0St ckOpts ckEnvOk).2 = false
    ∧ pushAction ck0St pushOptsPlain pushEnvOk = .localOnlyWarning
    ∧ pushExitCode (pushAction ck0St pushOptsPlain pushEnvOk) = 0 := by
  refine ⟨by decide, by decide, by decide, by decide, by decide⟩

/-- C4 (amended): on an empty `repoId` both checkpoint and push stop
before any remote call or state change, print a warning, never report
success, and return with exit status 0; on a blockchain-enabled
repository a checkpoint reports success only when the remote
transaction succeeded, and a surfaced failure exits non-zero. -/
theorem checkpoint_push_local_only_behavior (st : RepoState) (o : CkptOpts) (env : CkptEnv) :
    (env.bvcExists = true → st.repoId = "" →
      checkpointAction st o env = (st, .localOnlyWarning)
      ∧ ckptExitCode (checkpointAction st o env).2 = 0
      ∧ ckptReportsSuccess (checkpointAction st o env).2 = false)
    ∧ (∀ (args : TxArgs) (entry : CheckpointRec),
        (checkpointAction st o env).2 = .success args entry → env.tx = .ok ())
    ∧ (∀ m, (checkpointAction st o env).2 = .failed m →
        ckptExitCode (checkpointAction st o env).2 = 1)
    ∧ (∀ (po : PushOpts) (penv : PushEnv), penv.bvcExists = true → st.repoId = "" →
        pushAction st po penv = .localOnlyWarning
        ∧ pushExitCode (pushAction st po penv) = 0
        ∧ pushReportsSuccess (pushAction st po penv) = false) := by
  refine ⟨?_, ?_, ?_, ?_⟩
  · intro hbvc hrepo
    have hmain : checkpointAction st o env = (st, .localOnlyWarning) := by
      simp [checkpointAction, hbvc, hrepo]
    exact ⟨hmain, by rw [hmain]; rfl, by rw [hmain]; rfl⟩
  · intro args entry h
    rcases henv : env.tx with e | u
    · exact absurd h (checkpoint_no_success_of_tx_error st o env e args entry henv)
    · cases u
      rfl
  · intro m h
    rw [h]
    rfl
  · intro po penv hbvc hrepo
    have hmain : pushAction st po penv = .localOnlyWarning := by
      simp [pushAction, hbvc, hrepo]
    exact ⟨hmain, by rw [hmain]; rfl, by rw [hmain]; rfl⟩

set_option maxRecDepth 1000000 in
/-- Witness for C4 (amended): the local-only repository instance. -/
theorem checkpoint_push_local_only_behavior_witness :
    checkpointAction ck0St ckOpts ckEnvOk = (ck0St, .localOnlyWarning)
    ∧ pushAction ck0St pushOptsPlain pushEnvOk = .localOnlyWarning := by
  have h := checkpoint_push_local_only_behavior ck0St ckOpts ckEnvOk
  exact ⟨(h.1 rfl (by decide)).1, (h.2.2.2 pushOptsPlain pushEnvOk rfl (by decide)).1⟩

/-! ## Commit behavior lemmas -/

theorem commitAction_eq (st : CommitState) (o : CommitOpts) (env : CommitEnv) (m : String)
    (hbvc : env.bvcExists = true) (hstg : st.staging ≠ [])
    (hmsg : o.message = some m) (hm : m ≠ "") (hamend : o.amend = false) :
    commitAction st o env =
      ({ st with commits := st.commits ++ [commitNew st o env m], staging := [] },
       .created (commitNew st o env m) (commitRemote st.repoId o env).2.2) := by
  have hlen : st.staging.length ≠ 0 := by
    simpa [List.length_eq_zero] using hstg
  simp [commitAction, commitNew, hbvc, hlen, hmsg, hm, hamend]

/-! ## Claim C5: local commit creation survives remote failure -/

/-- C5: when the remote anchoring step fails — the IPFS upload throws,
or the record-commit transaction throws after a successful upload — the
commit is still created with `blockchainRecorded = false`, the warning
path runs, the commit is appended to the local log, and staging is
cleared. -/
theorem commit_survives_remote_failure (st : CommitState) (o : CommitOpts) (env : CommitEnv)
    (m : String)
    (hbvc : env.bvcExists = true) (hstg : st.staging ≠ [])
    (hmsg : o.message = some m) (hm : m ≠ "") (hamend : o.amend = false)
    (hlocal : o.localOnly = false)
    (hcfg : env.userConfigExists = true) (hinit : env.initOk = true)
    (hfail : (∃ e, env.ipfs = .error e) ∨
        (∃ cid e, env.ipfs = .ok cid ∧ st.repoId ≠ "" ∧ cid ≠ "" ∧ env.record = .error e)) :
    commitAction st o env =
      ({ st with commits := st.commits ++ [commitNew st o env m], staging := [] },
       .created (commitNew st o env m) true)
    ∧ (commitNew st o env m).blockchainRecorded = false
    ∧ (commitNew st o env m).files = st.staging.map (fun f => ⟨f.path, f.hash, f.size⟩) := by
  have hr : (commitRemote st.repoId o env).2.1 = false
      ∧ (commitRemote st.repoId o env).2.2 = true := by
    rcases hfail with ⟨e, he⟩ | ⟨cid, e, hcid, hrepo, hcne, hrec⟩
    · constructor <;> simp [commitRemote, hlocal, hcfg, hinit, he]
    · constructor <;> simp [commitRemote, hlocal, hcfg, hinit, hcid, hrepo, hcne, hrec]
  refine ⟨?_, ?_, rfl⟩
  · rw [commitAction_eq st o env m hbvc hstg hmsg hm hamend, hr.2]
  · show (commitRemote st.repoId o env).2.1 = false
    exact hr.1

set_option maxRecDepth 1000000 in
/-- Witness for C5: a blockchain-configured repository whose IPFS
upload fails still creates the commit locally, unanchored, with a
warning. -/
theorem commit_survives_remote_failure_witness :
    commitAction cmStRemote cmOptsRemote cmEnvIpfsFail =
      ({ cmStRemote with
          commits := cmStRemote.commits ++ [commitNew cmStRemote cmOptsRemote cmEnvIpfsFail "first"],
          staging := [] },
       .created (commitNew cmStRemote cmOptsRemote cmEnvIpfsFail "first") true)
    ∧ (commitNew cmStRemote cmOptsRemote cmEnvIpfsFail "first").blockchainRecorded = false := by
  have h := commit_survives_remote_failure cmStRemote cmOptsRemote cmEnvIpfsFail "first"
    rfl (by decide) rfl (by decide) rfl rfl rfl rfl
    (Or.inl ⟨"IPFS daemon unreachable", rfl⟩)
  exact ⟨h.1, h.2.1⟩

/-! ## Claim C6: the commit-id derivation -/

/-- C6: the created commit's id is the Content Hasher applied to the
concatenation of the staged digests sorted lexicographically, followed
by the message and the timestamp; the sort really is a lexicographic
ordering (sorted, and a permutation of the staged digests), and the id
is a deterministic function of exactly those inputs. -/
theorem commit_id_derivation (st : CommitState) (o : CommitOpts) (env : CommitEnv) (m : String)
    (hbvc : env.bvcExists = true) (hstg : st.staging ≠ [])
    (hmsg : o.message = some m) (hm : m ≠ "") (hamend : o.amend = false) :
    (∃ w, commitAction st o env =
      ({ st with commits := st.commits ++ [commitNew st o env m], staging := [] },
       .created (commitNew st o env m) w))
    ∧ (commitNew st o env m).commitHash = commitHashOf (st.staging.map (·.hash)) m env.hashTime
    ∧ (jsSortStrings (st.staging.map (·.hash))).Sorted (· ≤ ·)
    ∧ (jsSortStrings (st.staging.map (·.hash))).Perm (st.staging.map (·.hash))
    ∧ ∀ (st' : CommitState) (o' : CommitOpts) (env' : CommitEnv) (m' : String),
        st'.staging.map (·.hash) = st.staging.map (·.hash) → m' = m →
        env'.hashTime = env.hashTime →
        (commitNew st' o' env' m').commitHash = (commitNew st o env m).commitHash := by
  refine ⟨⟨(commitRemote st.repoId o env).2.2,
      commitAction_eq st o env m hbvc hstg hmsg hm hamend⟩, rfl,
    List.sorted_insertionSort _ _, List.perm_insertionSort _ _, ?_⟩
  intro st' o' env' m' h1 h2 h3
  simp [commitNew, commitHashOf, h1, h2, h3]

set_option maxRecDepth 1000000 in
/-- Witness for C6: the end-to-end scenario's commit id equals the
Content Hasher of digest-of-README, message and timestamp. -/
theorem commit_id_derivation_witness :
    (commitNew cmSt cmOpts cmEnv "first").commitHash =
      commitHashOf [sha256hex "# demo"] "first" "2026-01-01T00:00:00.000Z"
    ∧ (commitAction cmSt cmOpts cmEnv).2 =
        .created (commitNew cmSt cmOpts cmEnv "first") false := by
  have h := commit_id_derivation cmSt cmOpts cmEnv "first" rfl (by decide) rfl (by decide) rfl
  exact ⟨h.2.1, by decide⟩

/-! ## Claim C7: the first commit's parent pointer -/

set_option maxRecDepth 1000000 in
/-- Counterexample for C7 as stated: in the end-to-end scenario the
first commit's `parentHash` is JSON `null` (modelled `none`), not the
empty string. -/
theorem first_commit_parent_counterexample :
    createdParent (commitAction cmSt cmOpts cmEnv).2 = some none
    ∧ createdParent (commitAction cmSt cmOpts cmEnv).2 ≠ some (some "") := by
  refine ⟨by decide, by decide⟩

/-- C7 (amended): on an empty commit log, the created commit carries
`parentHash = null` (not `""`); the rest of the scenario holds —
exactly one entry lands in `commits.json`, its `files` holds the one
staged snapshot, and `staging.json` is reset to the empty list. -/
theorem first_commit_parent_null (st : CommitState) (o : CommitOpts) (env : CommitEnv)
    (m : String) (f : StagedFile)
    (hbvc : env.bvcExists = true) (hcommits : st.commits = [])
    (hstg : st.staging = [f])
    (hmsg : o.message = some m) (hm : m ≠ "") (hamend : o.amend = false) :
    (∃ w, commitAction st o env =
      ({ st with commits := [commitNew st o env m], staging := [] },
       .created (commitNew st o env m) w))
    ∧ (commitNew st o env m).parentHash = none
    ∧ (commitNew st o env m).files = [⟨f.path, f.hash, f.size⟩]
    ∧ (commitAction st o env).1.commits.length = 1
    ∧ (commitAction st o env).1.staging = [] := by
  have hne : st.staging ≠ [] := by rw [hstg]; exact List.cons_ne_nil f []
  have hact := commitAction_eq st o env m hbvc hne hmsg hm hamend
  rw [hcommits] at hact
  refine ⟨⟨(commitRemote st.repoId o env).2.2, by simpa using hact⟩, ?_, ?_, ?_, ?_⟩
  · simp [commitNew, hcommits]
  · simp [commitNew, hstg]
  · rw [hact]
    simp
  · rw [hact]

set_option maxRecDepth 1000000 in
/-- Witness for C7 (amended): the `init --local-only`, `add README.md`,
`commit -m "first"` scenario. -/
theorem first_commit_parent_null_witness :
    (commitNew cmSt cmOpts cmEnv "first").parentHash = none
    ∧ (commitNew cmSt cmOpts cmEnv "first").files = [⟨"README.md", sha256hex "# demo", 6⟩]
    ∧ (commitAction cmSt cmOpts cmEnv).1.commits.length = 1
    ∧ (commitAction cmSt cmOpts cmEnv).1.staging = [] := by
  have h := first_commit_parent_null cmSt cmOpts cmEnv "first" readmeStaged
    rfl rfl rfl rfl (by decide) rfl
  exact ⟨h.2.1, h.2.2.1, h.2.2.2.1, h.2.2.2.2⟩

/-! ## Staging upsert lemmas -/

theorem set_getD_self {α : Type} (l : List α) (n : Nat) (d : α) :
    l.set n (l.getD n d) = l := by
  induction l generalizing n with
  | nil => simp
  | cons a l ih =>
    rcases n with _ | n
    · simp
    · simp only [List.getD_cons_succ, List.set_cons_succ, List.cons.injEq, true_and]
      exact ih n

theorem find?_set_eq {α : Type} (p : α → Bool) (l : List α) (i : Nat) (e : α)
    (hi : i < l.length) (he : p e = true)
    (hbefore : ∀ k, k < i → p (l.getD k e) = false) :
    (l.set i e).find? p = some e := by
  induction l generalizing i with
  | nil => simp at hi
  | cons a l ih =>
    rcases i with _ | i
    · simp [he]
    · have hpa : ¬ (p a = true) := by simpa using hbefore 0 (by omega)
      rw [List.set_cons_succ, List.find?_cons_of_neg _ hpa]
      refine ih i (by simpa using hi) ?_
      intro k hk
      simpa using hbefore (k + 1) (by omega)

theorem stageUpsert_nodup (l : List StagedFile) (e : StagedFile)
    (h : pathsNodup l) : pathsNodup (stageUpsert l e) := by
  unfold pathsNodup at h ⊢
  unfold stageUpsert
  rw [List.map_append]
  refine List.Nodup.append (List.Nodup.sublist (List.Sublist.map _ (List.filter_sublist l)) h)
    (by simp) ?_
  intro x hx hex
  simp only [List.map_cons, List.map_nil, List.mem_singleton] at hex
  subst hex
  rcases List.mem_map.mp hx with ⟨f, hf, hfp⟩
  have := (List.mem_filter.mp hf).2
  simp only [decide_not, Bool.not_eq_eq_eq_not, Bool.not_true, decide_eq_false_iff_not] at this
  exact this hfp

theorem addSingleFile_nodup (l : List StagedFile) (e : StagedFile)
    (h : pathsNodup l) : pathsNodup (addSingleFile l e) := by
  unfold addSingleFile
  rcases hfi : findIndex (fun f => f.path = e.path) l with _ | i
  · simp only [hfi]
    unfold pathsNodup at h ⊢
    rw [List.map_append]
    refine List.Nodup.append h (by simp) ?_
    intro x hx hex
    simp only [List.map_cons, List.map_nil, List.mem_singleton] at hex
    subst hex
    rcases List.mem_map.mp hx with ⟨f, hf, hfp⟩
    have := (findIndex_eq_none_iff _ l).mp hfi f hf
    simp only [decide_eq_false_iff_not] at this
    exact this hfp
  · have hi : i < l.length := findIndex_lt_length hfi
    have hp : (l.getD i e).path = e.path := by
      have := ((findIndex_eq_some_iff _ e l i).mp hfi).2.1
      simpa using this
    simp only [hfi]
    unfold pathsNodup at h ⊢
    rw [List.map_set]
    have hgd : e.path = (l.map (·.path)).getD i "" := by
      rw [List.getD_eq_getElem _ _ (by simpa using hi), List.getElem_map, ← hp,
        List.getD_eq_getElem l e hi]
    rw [hgd, set_getD_self]
    exact h

theorem stageUpsert_find (l : List StagedFile) (e : StagedFile) :
    (stageUpsert l e).find? (fun f => f.path = e.path) = some e := by
  unfold stageUpsert
  rw [List.find?_append]
  have h1 : (l.filter fun f => f.path ≠ e.path).find? (fun f => f.path = e.path) = none := by
    rw [List.find?_eq_none]
    intro x hx
    have := (List.mem_filter.mp hx).2
    simp only [decide_not, Bool.not_eq_eq_eq_not, Bool.not_true, decide_eq_false_iff_not] at this
    simpa using this
  rw [h1]
  simp

theorem addSingleFile_find (l : List StagedFile) (e : StagedFile) :
    (addSingleFile l e).find? (fun f => f.path = e.path) = some e := by
  unfold addSingleFile
  rcases hfi : findIndex (fun f => f.path = e.path) l with _ | i
  · simp only [hfi]
    rw [List.find?_append]
    have h1 : l.find? (fun f => f.path = e.path) = none := by
      rw [List.find?_eq_none]
      intro x hx
      have := (findIndex_eq_none_iff _ l).mp hfi x hx
      simpa using this
    rw [h1]
    simp
  · simp only [hfi]
    have hi : i < l.length := findIndex_lt_length hfi
    refine find?_set_eq _ l i e hi (by simp) ?_
    intro k hk
    exact ((findIndex_eq_some_iff _ e l i).mp hfi).2.2 k hk

theorem foldl_stageUpsert_nodup (es : List StagedFile) :
    ∀ acc, pathsNodup acc → pathsNodup (es.foldl stageUpsert acc) := by
  induction es with
  | nil => intro acc h; exact h
  | cons e es ih => intro acc h; exact ih _ (stageUpsert_nodup acc e h)

theorem foldl_addSingleFile_nodup (es : List StagedFile) :
    ∀ acc, pathsNodup acc → pathsNodup (es.foldl addSingleFile acc) := by
  induction es with
  | nil => intro acc h; exact h
  | cons e es ih => intro acc h; exact ih _ (addSingleFile_nodup acc e h)

/-! ## Claim C8: at most one staging entry per path -/

/-- C8: both staging upserts (the filter-and-push form and the
`addSingleFile` update-or-append form) preserve the at-most-one-entry-
per-path invariant, so any sequence of adds starting from the empty
staging set keeps paths unique; and after staging a path the entry the
staging set holds for that path is exactly the new snapshot. -/
theorem staging_unique_paths :
    (∀ (l : List StagedFile) (e : StagedFile), pathsNodup l → pathsNodup (stageUpsert l e))
    ∧ (∀ (l : List StagedFile) (e : StagedFile), pathsNodup l → pathsNodup (addSingleFile l e))
    ∧ (∀ (l : List StagedFile) (e : StagedFile),
        (stageUpsert l e).find? (fun f => f.path = e.path) = some e)
    ∧ (∀ (l : List StagedFile) (e : StagedFile),
        (addSingleFile l e).find? (fun f => f.path = e.path) = some e)
    ∧ ∀ es : List StagedFile,
        pathsNodup (es.foldl stageUpsert []) ∧ pathsNodup (es.foldl addSingleFile []) :=
  ⟨stageUpsert_nodup, addSingleFile_nodup, stageUpsert_find, addSingleFile_find,
   fun es => ⟨foldl_stageUpsert_nodup es [] (by simp [pathsNodup]),
              foldl_addSingleFile_nodup es [] (by simp [pathsNodup])⟩⟩

/-- Witness for C8: re-staging `a.txt` keeps one entry per path and
leaves only the newer snapshot for `a.txt`, under both upsert forms. -/
theorem staging_unique_paths_witness :
    pathsNodup (stageUpsert [stagedOld, stagedother] stagedNew)
    ∧ (stageUpsert [stagedOld, stagedother] stagedNew).find?
        (fun f => f.path = stagedNew.path) = some stagedNew
    ∧ (addSingleFile [stagedOld, stagedother] stagedNew).find?
        (fun f => f.path = stagedNew.path) = some stagedNew := by
  exact ⟨staging_unique_paths.1 _ _ (by decide),
    staging_unique_paths.2.2.1 [stagedOld, stagedother] stagedNew,
    staging_unique_paths.2.2.2.1 [stagedOld, stagedother] stagedNew⟩

/-! ## Directory expansion lemmas -/

theorem scanDir_eq : ∀ (pre : String) (items : List FSEntry),
    scanDir pre items = (specRecursiveFiles items).map (fun q => pre ++ q)
  | pre, [] => by simp [scanDir, specRecursiveFiles]
  | pre, (FSEntry.file n) :: rest => by
    by_cases hn : jsStartsWith n "."
    · simp [scanDir, specRecursiveFiles, hn, scanDir_eq pre rest]
    · simp [scanDir, specRecursiveFiles, hn, scanDir_eq pre rest]
  | pre, (FSEntry.dir d children) :: rest => by
    by_cases hd : d ∈ excludeDirs
    · simp [scanDir, specRecursiveFiles, hd, scanDir_eq pre rest]
    · have hrec := scanDir_eq (pre ++ d ++ "/") children
      have hrest := scanDir_eq pre rest
      simp only [scanDir, specRecursiveFiles, if_neg hd, hrec, hrest, List.map_append,
        List.map_map]
      refine congrArg (· ++ (specRecursiveFiles rest).map (fun q => pre ++ q)) ?_
      refine List.map_congr_left ?_
      intro q _
      simp [Function.comp, String.append_assoc]

theorem dirBranch_mem (d : String) (children : List FSEntry) (p : String) :
    p ∈ dirBranchStagedPaths d children ↔
      ∃ n, FSEntry.file n ∈ children ∧ jsStartsWith n "." = false ∧ p = d ++ "/" ++ n := by
  unfold dirBranchStagedPaths
  rw [List.mem_filterMap]
  constructor
  · rintro ⟨it, hit, hmap⟩
    cases it with
    | file n =>
      by_cases hn : jsStartsWith n "."
      · simp [hn] at hmap
      · simp only [if_neg hn, Option.some.injEq] at hmap
        exact ⟨n, hit, by simpa using hn, hmap.symm⟩
    | dir a b => simp at hmap
  · rintro ⟨n, hmem, hhid, rfl⟩
    exact ⟨FSEntry.file n, hmem, by simp [hhid]⟩

/-! ## Claim C9: directory expansion of the add operation -/

/-- Counterexample for C9 as stated: passing a directory containing a
nested subdirectory to add stages only the direct non-hidden file
children; the file `sub/b.txt` in the nested subdirectory is not
staged, although the recursive expansion (which the source reserves for
the path `"."`) does reach it. -/
theorem add_directory_expansion_counterexample :
    dirBranchStagedPaths "d" nestedTree = ["d/a.txt"]
    ∧ "d/sub/b.txt" ∉ dirBranchStagedPaths "d" nestedTree
    ∧ "sub/b.txt" ∈ getAllFilesInDirectory nestedTree := by
  refine ⟨by decide, by decide, ?_⟩
  have h : getAllFilesInDirectory nestedTree = ["a.txt", "sub/b.txt"] := by
    simp [getAllFilesInDirectory, nestedTree, scanDir, excludeDirs,
      show jsStartsWith "a.txt" "." = false from by decide,
      show jsStartsWith "b.txt" "." = false from by decide]
  rw [h]
  decide

/-- C9 (amended): a directory path passed to add is expanded only one
level deep — exactly its direct children that are regular files and not
hidden are staged, and nothing from nested subdirectories; the full
recursive expansion (excluding hidden files and the configured
directory exclusions) is `getAllFilesInDirectory`, which the source
applies only to the special path `"."`. -/
theorem add_directory_expansion :
    (∀ (d : String) (children : List FSEntry) (p : String),
        p ∈ dirBranchStagedPaths d children ↔
          ∃ n, FSEntry.file n ∈ children ∧ jsStartsWith n "." = false ∧ p = d ++ "/" ++ n)
    ∧ ∀ items : List FSEntry, getAllFilesInDirectory items = specRecursiveFiles items := by
  refine ⟨dirBranch_mem, ?_⟩
  intro items
  unfold getAllFilesInDirectory
  rw [scanDir_eq]
  rw [show (fun q => "" ++ q) = (id : String → String) from funext fun q => rfl]
  exact List.map_id _

/-- Witness for C9 (amended): on the nested tree, the direct child is
staged via the characterization, and the recursive scan agrees with the
claimed recursive expansion. -/
theorem add_directory_expansion_witness :
    "d/a.txt" ∈ dirBranchStagedPaths "d" nestedTree
    ∧ getAllFilesInDirectory nestedTree = specRecursiveFiles nestedTree := by
  refine ⟨(add_directory_expansion.1 "d" nestedTree "d/a.txt").mpr
    ⟨"a.txt", by simp [nestedTree], by decide, by decide⟩,
    add_directory_expansion.2 nestedTree⟩

end BVC
